import Mathlib

/-!
Shallow embedding of `blackvueconcat.py`, a tool that groups dash-camera
recordings into driving-session chunks, trims overlapping frames between
consecutive files of a session, and merges them per camera role.

Modelling conventions:
* Timestamps parsed by `strptime('%Y%m%d_%H%M%S')` have whole-second
  resolution; they are embedded as `Int` seconds.  The gap computation
  `int(duration.total_seconds())` is then exact integer subtraction.
* The chunk list built by `create_chunks` is kept in reversed form while
  folding (head of the outer list = the current chunk `chunks[-1]`, head of
  each inner list = its most recently appended recording `chunks[-1][-1]`);
  the final result reverses both levels back to source order.
* Directory listing, regex matching and `strptime` are I/O performed by the
  recording scanner; the chunker is embedded as a function of the already
  scanned, ordered recording list.
* Python string methods (`startswith`, `endswith`, `split`, `strip`,
  `int`/`float` conversion) are re-implemented over the character list of
  the string so that every definition evaluates inside the kernel; the
  semantics on the inputs the program handles are identical.
* `float` values (`pts_time`, `inpoint`) are embedded as `ℚ`: the frame
  presentation-timestamp fields emitted by the fingerprinting tool are
  integer tick counts, and the program only multiplies them by the rational
  time base and stores the result, so no floating-point rounding is
  observable in the claims under study.
-/

/-- Python `p.startswith(s)`, over the character lists. -/
def pyStartsWith (s p : String) : Bool := p.data.isPrefixOf s.data

/-- Python `p.endswith(s)`, over the character lists. -/
def pyEndsWith (s p : String) : Bool := p.data.isSuffixOf s.data

/-- Python `str.split(sep)` for a one-character separator: splits at every
occurrence, keeping empty pieces (so the result is always non-empty). -/
def pySplitOn (sep : Char) : List Char → List (List Char)
  | [] => [[]]
  | c :: rest =>
    match pySplitOn sep rest with
    | [] => [[]]
    | g :: gs => if c = sep then [] :: g :: gs else (c :: g) :: gs

/-- Split at every character satisfying `p`, keeping empty pieces. -/
def pySplitPred (p : Char → Bool) : List Char → List (List Char)
  | [] => [[]]
  | c :: rest =>
    match pySplitPred p rest with
    | [] => [[]]
    | g :: gs => if p c then [] :: g :: gs else (c :: g) :: gs

/-- Python `str.split()` with no argument: split on whitespace runs and
drop the empty pieces. -/
def pySplitWs (l : List Char) : List (List Char) :=
  (pySplitPred (fun c => c.isWhitespace) l).filter (fun g => !g.isEmpty)

/-- Python `str.strip()`: drop leading and trailing whitespace. -/
def pyStrip (l : List Char) : List Char :=
  ((l.dropWhile Char.isWhitespace).reverse.dropWhile Char.isWhitespace).reverse

/-- Decimal value of a non-empty all-digit character list. -/
def digitsVal (l : List Char) : Option Nat :=
  match l with
  | [] => none
  | _ => l.foldl (fun acc c =>
      match acc with
      | none => none
      | some n => if c.isDigit then some (n * 10 + (c.toNat - 48)) else none)
      (some 0)

/-- Python `int(s)` (also covering `float(s)` on the integer-valued fields
the fingerprinting tool emits): optional surrounding whitespace, optional
sign, at least one digit.  `none` models the `ValueError` Python raises. -/
def pyToInt (s : String) : Option Int :=
  match pyStrip s.data with
  | '-' :: rest => (digitsVal rest).map (fun n => -(n : Int))
  | '+' :: rest => (digitsVal rest).map (fun n => (n : Int))
  | l => (digitsVal l).map (fun n => (n : Int))

/-- Runtime options of the program (the argparse surface the embedded
functions consult).  Thresholds are Python `int`s, hence `Int`. -/
structure Options where
  consecutive_threshold : Int
  concat_threshold : Int
  retention : Int
  initial_impact : Bool
  no_output : Bool
  overwrite : Bool
deriving DecidableEq

/-- One scanned source recording: the dict built in `create_chunks` from a
filename matching `PATTERN_RECORDINGS`.  `datetime` is the parsed timestamp
in whole seconds, `type` the role code (e.g. "NF", "IR"), `ext` the file
extension. -/
structure Recording where
  datetime : Int
  type : String
  ext : String
  dir : String
  filename : String
deriving DecidableEq

/-- `impact_flag` of `create_chunks`: the number of members of a chunk
whose role starts with the impact marker "I". -/
def impactCount (chunk : List Recording) : Nat :=
  (chunk.filter (fun item => pyStartsWith item.type "I")).length

/-- The body of the `for f in files` loop of `create_chunks`, acting on the
reversed chunk state (head = current chunk, its head = last appended).
The `[] :: older` arm is unreachable: the fold never produces an empty
chunk (Python would raise `IndexError` at `chunks[-1][-1]` there). -/
def addToChunks (options : Options) (chunks : List (List Recording))
    (obj : Recording) : List (List Recording) :=
  match chunks with
  | [] => [[obj]]
  | [] :: older => [obj] :: older
  | (last :: cur) :: older =>
    if obj.datetime = last.datetime then
      (obj :: last :: cur) :: older
    else if obj.datetime - last.datetime ≤ options.consecutive_threshold then
      if options.initial_impact then
        (obj :: last :: cur) :: older
      else
        if (last :: cur).length = impactCount (last :: cur) then
          if pyStartsWith obj.type "I" then
            (obj :: last :: cur) :: older
          else
            [obj] :: (last :: cur) :: older
        else
          (obj :: last :: cur) :: older
    else
      [obj] :: (last :: cur) :: older

/-- `create_chunks`: fold the ordered recordings through the transition
rule, then restore source order at both levels. -/
def create_chunks (options : Options) (recs : List Recording) :
    List (List Recording) :=
  ((recs.foldl (addToChunks options) []).map List.reverse).reverse

/-- The `for item in chunk` loop of `process_chunks` that fills
`videos_f` / `videos_r`: mp4 recordings whose role ends in "F" go to the
front list, remaining mp4 recordings whose role ends in "R" to the rear
list, everything else to neither (`else: pass`). -/
def chunkVideosStep (acc : List Recording × List Recording)
    (item : Recording) : List Recording × List Recording :=
  if item.ext = "mp4" then
    if pyEndsWith item.type "F" then (acc.1 ++ [item], acc.2)
    else if pyEndsWith item.type "R" then (acc.1, acc.2 ++ [item])
    else acc
  else acc

/-- The per-chunk camera-role split `(videos_f, videos_r)`. -/
def chunkVideos (chunk : List Recording) : List Recording × List Recording :=
  chunk.foldl chunkVideosStep ([], [])

/-- Result of one external fingerprinting invocation (`subprocess.run` of
the frame-hash extraction): exit status and the lines of its standard
output (`result.stdout.split('\n')`).  The exception path of the
surrounding `try` (the process failing to start at all) is an I/O event
outside this embedding. -/
structure FPResult where
  returncode : Int
  stdout : List String
deriving DecidableEq

/-- State of the `for line in result.stdout.split('\n')` loop of
`create_concat_file`: the running `inpoint`, the current time base, and the
`md5` loop variable (the hash parsed from the most recent frame line;
`none` while still unassigned). -/
structure ScanState where
  inpoint : ℚ
  tb_num : Int
  tb_den : Int
  md5 : Option String
deriving DecidableEq

/-- Parse of a `#tb` header line:
`tb_num, tb_den = list(map(int, line.split()[-1].split('/')))`.
`none` models the exceptions Python raises on a malformed header. -/
def parseTb (line : String) : Option (Int × Int) :=
  match (pySplitWs line.data).getLast? with
  | none => none
  | some tok =>
    match pySplitOn '/' tok with
    | [a, b] =>
      match pyToInt (String.mk a), pyToInt (String.mk b) with
      | some n, some d => some (n, d)
      | _, _ => none
    | _ => none

/-- Parse of a frame line: `splitted = line.split(',')`, raw presentation
timestamp `float(splitted[2])` and hash `splitted[-1].strip()`.  `none`
models the exceptions Python raises when the line has fewer than three
fields or a non-numeric timestamp field. -/
def parseFrame (line : String) : Option (Int × String) :=
  let splitted := pySplitOn ',' line.data
  match splitted.get? 2 with
  | none => none
  | some ptsStr =>
    match pyToInt (String.mk ptsStr) with
    | none => none
    | some pts => some (pts, String.mk (pyStrip (splitted.getLast?.getD [])))

/-- One iteration of the line loop of `create_concat_file`.
`md5_last_frame` is the hash carried over from the previous file's final
frame (`none` for the first file, where the Python comparison
`md5 == None` is always false).  A line whose parse fails is kept as a
no-op here; in Python the raised exception would abort the whole run, so
the two models agree on every input that the program processes to
completion. -/
def lineStep (md5_last_frame : Option String) (st : ScanState)
    (line : String) : ScanState :=
  if pyStartsWith line "#tb" then
    match parseTb line with
    | some nd => { st with tb_num := nd.1, tb_den := nd.2 }
    | none => st
  else if !pyStartsWith line "#" && !line.data.isEmpty then
    match parseFrame line with
    | none => st
    | some pm =>
      if some pm.2 = md5_last_frame then
        { st with
            inpoint := (pm.1 : ℚ) * (st.tb_num : ℚ) / (st.tb_den : ℚ),
            md5 := some pm.2 }
      else { st with md5 := some pm.2 }
  else st

/-- `os.path.join(video['dir'], video['filename'])`. -/
def videoPath (v : Recording) : String := v.dir ++ "/" ++ v.filename

/-- The body of the `for video in videos` loop of `create_concat_file`,
acting on the inter-file state (trim records built so far, carried
`md5_last_frame`).  Python's loop variable `md5` persists across files and
`md5_last_frame = md5` runs after every file's line loop, so at every file
boundary the two variables hold the same value; the scan of each file
therefore starts with `md5 := acc.2` and the carried anchor afterwards is
the final `md5` of the scan.  (When no frame line has ever been parsed
both stay unset; Python raises `NameError` at the assignment in that
corner — this total model keeps `none` there, and
`create_concat_records_run` below models that abort explicitly.)  The
exit status is only logged, so it does not enter the state. -/
def processVideo (acc : List (String × ℚ) × Option String)
    (vr : Recording × FPResult) : List (String × ℚ) × Option String :=
  let st := vr.2.stdout.foldl (lineStep acc.2) ⟨0, 1, 1, acc.2⟩
  (acc.1 ++ [(videoPath vr.1, st.inpoint)], st.md5)

/-- The `records` list of `create_concat_file`: one
`(file path, inpoint)` trim record per video, in order. -/
def create_concat_records (videos : List (Recording × FPResult)) :
    List (String × ℚ) :=
  (videos.foldl processVideo ([], none)).1

/-- The `md5_last_frame` anchor carried over after processing the given
prefix of the video list. -/
def anchorAfter (videos : List (Recording × FPResult)) : Option String :=
  (videos.foldl processVideo ([], none)).2

/-- The `for video in videos` loop of `create_concat_file` (lines
172-202) with the `NameError` of line 197 made explicit.  After a file's
line scan, `md5_last_frame = md5` reads the loop variable `md5`, which is
still unbound when no frame line has yet been parsed in this call; Python
raises there, the unhandled exception aborts the whole run, and the
current file is never appended (line 202 is not reached).  `Except.error`
carries the records built before the crash (the abort discards them),
`Except.ok` the completed trim-record list. -/
def create_concat_records_run (acc : List (String × ℚ) × Option String) :
    List (Recording × FPResult) →
    Except (List (String × ℚ)) (List (String × ℚ))
  | [] => Except.ok acc.1
  | vr :: rest =>
    let st := vr.2.stdout.foldl (lineStep acc.2) ⟨0, 1, 1, acc.2⟩
    match st.md5 with
    | none => Except.error acc.1
    | some h =>
      create_concat_records_run
        (acc.1 ++ [(videoPath vr.1, st.inpoint)], some h) rest

/-- Specification-side description of the overlap search: the presentation
time `raw_pts * tb_num / tb_den` of the **last** frame line whose hash
equals the carried anchor, scanning forward with the running time base
(initially `tbn / tbd`); `none` when no frame line matches. -/
def lastMatchTime (anchor : Option String) (tbn tbd : Int) :
    List String → Option ℚ
  | [] => none
  | line :: rest =>
    if pyStartsWith line "#tb" then
      match parseTb line with
      | some nd => lastMatchTime anchor nd.1 nd.2 rest
      | none => lastMatchTime anchor tbn tbd rest
    else if !pyStartsWith line "#" && !line.data.isEmpty then
      match parseFrame line with
      | none => lastMatchTime anchor tbn tbd rest
      | some pm =>
        if some pm.2 = anchor then
          Option.orElse (lastMatchTime anchor tbn tbd rest)
            (fun _ => some ((pm.1 : ℚ) * (tbn : ℚ) / (tbd : ℚ)))
        else lastMatchTime anchor tbn tbd rest
    else lastMatchTime anchor tbn tbd rest

/-- Specification-side description of a file's final frame hash: the hash
field of the **last** frame line of its fingerprint output; `none` when
the output contains no frame line. -/
def lastFrameHash : List String → Option String
  | [] => none
  | line :: rest =>
    if pyStartsWith line "#tb" then lastFrameHash rest
    else if !pyStartsWith line "#" && !line.data.isEmpty then
      match parseFrame line with
      | none => lastFrameHash rest
      | some pm => Option.orElse (lastFrameHash rest) (fun _ => some pm.2)
    else lastFrameHash rest

/-- Identity of a derived file, `'{}-{}_{}.{}'.format(time_start,
time_end, camera, suffix)`.  The `strftime('%Y%m%d_%H%M%S')` rendering of
the two session timestamps is injective, so the name is embedded as the
tuple it renders. -/
structure DerivedName where
  timeStart : Int
  timeEnd : Int
  camera : String
  suffix : String
deriving DecidableEq

/-- The work and output directories, as the sets (lists) of derived files
they currently contain. -/
structure FS where
  work : List DerivedName
  output : List DerivedName
deriving DecidableEq

/-- Writing a derived file into the work directory. -/
def fsWriteWork (fs : FS) (n : DerivedName) : FS :=
  if n ∈ fs.work then fs else { fs with work := fs.work ++ [n] }

/-- Writing a derived file into the output directory. -/
def fsWriteOutput (fs : FS) (n : DerivedName) : FS :=
  if n ∈ fs.output then fs else { fs with output := fs.output ++ [n] }

/-- Observable actions of the concatenation driver, one per logged branch
of `process_videos` / `create_concat_file` / `create_output_file`. -/
inductive Event where
  | skippedThreshold (title : String)
  | concatExists (name : DerivedName)
  | fingerprint (file : String) (returncode : Int)
  | concatNotCreated (name : DerivedName)
  | concatCreated (name : DerivedName) (records : List (String × ℚ))
  | outputExists (name : DerivedName)
  | outputNotCreated (name : DerivedName)
  | mergeInvoked (concatName : DerivedName) (outputName : DerivedName)
  | mergeFailed (name : DerivedName) (returncode : Int)
  | outputCreated (name : DerivedName)
deriving DecidableEq

/-- `create_concat_file`: skip when the manifest already exists and
overwrite is off (before any fingerprinting); otherwise fingerprint every
video, build the trim records, and write the manifest unless `no_output`
is set.  Each video's fingerprint result is part of the input pair. -/
def create_concat_file (options : Options) (fs : FS) (name : DerivedName)
    (videos : List (Recording × FPResult)) : FS × List Event :=
  if name ∈ fs.work ∧ options.overwrite = false then
    (fs, [Event.concatExists name])
  else
    let fpEvents := videos.map
      (fun vr => Event.fingerprint vr.1.filename vr.2.returncode)
    if options.no_output then
      (fs, fpEvents ++ [Event.concatNotCreated name])
    else
      (fsWriteWork fs name,
       fpEvents ++ [Event.concatCreated name (create_concat_records videos)])

/-- `create_output_file`: skip when the output already exists and overwrite
is off, skip on `no_output` (Python returns `None` there, modelled as
`false`; the caller ignores the value), otherwise invoke the external merge
(`ffmpeg -y`, which writes the destination) and report its exit status. -/
def create_output_file (options : Options) (fs : FS)
    (concatName outputName : DerivedName) (returncode : Int) :
    FS × List Event × Bool :=
  if outputName ∈ fs.output ∧ options.overwrite = false then
    (fs, [Event.outputExists outputName], true)
  else if options.no_output then
    (fs, [Event.outputNotCreated outputName], false)
  else
    let fs1 := fsWriteOutput fs outputName
    if returncode ≠ 0 then
      (fs1, [Event.mergeInvoked concatName outputName,
             Event.mergeFailed outputName returncode], false)
    else
      (fs1, [Event.mergeInvoked concatName outputName,
             Event.outputCreated outputName], true)

/-- Result of `process_videos`: updated directories, observable events,
and the returned boolean. -/
structure PVOut where
  fs : FS
  events : List Event
  ok : Bool
deriving DecidableEq

/-- `process_videos`: skip the whole camera role when the video count is
at or below `concat_threshold`; otherwise run `create_concat_file` then
`create_output_file`.  The external collaborators are passed as functions:
`fp` yields each video's fingerprint result, `mergerc` the merge exit
status for a given output name.  Returns `True` on both paths, as the
source does. -/
def process_videos (options : Options) (fs : FS)
    (time_start time_end : Int) (camera : String)
    (videos : List Recording) (title : String)
    (fp : Recording → FPResult) (mergerc : DerivedName → Int) : PVOut :=
  let concat_name : DerivedName := ⟨time_start, time_end, camera, "con"⟩
  let output_name : DerivedName := ⟨time_start, time_end, camera, "mp4"⟩
  if (videos.length : Int) ≤ options.concat_threshold then
    { fs := fs, events := [Event.skippedThreshold title], ok := true }
  else
    let c := create_concat_file options fs concat_name
      (videos.map (fun v => (v, fp v)))
    let o := create_output_file options c.1 concat_name output_name
      (mergerc output_name)
    { fs := o.1, events := c.2 ++ o.2.1, ok := true }

/-- `process_chunks`: for each chunk, split the recordings by camera role
and process the front then the rear list, stopping early when a call
reports failure (`process_videos` always returns `True`, so the break
never fires; it is modelled nonetheless).  The date-based log title is
abstracted to the role label.  An empty chunk is unreachable from
`create_chunks` (Python would raise `IndexError` at `chunk[0]`); the model
skips it. -/
def process_chunks (options : Options) (fp : Recording → FPResult)
    (mergerc : DerivedName → Int) : FS → List (List Recording) →
    FS × List Event
  | fs, [] => (fs, [])
  | fs, [] :: rest => process_chunks options fp mergerc fs rest
  | fs, (c0 :: tail) :: rest =>
    let time_start := c0.datetime
    let time_end := (tail.getLastD c0).datetime
    let vids := chunkVideos (c0 :: tail)
    let pv1 := process_videos options fs time_start time_end "F" vids.1
      "Front" fp mergerc
    if pv1.ok then
      let pv2 := process_videos options pv1.fs time_start time_end "R"
        vids.2 "Rear" fp mergerc
      if pv2.ok then
        let r := process_chunks options fp mergerc pv2.fs rest
        (r.1, pv1.events ++ pv2.events ++ r.2)
      else (pv2.fs, pv1.events ++ pv2.events)
    else (pv1.fs, pv1.events)

/-- The retention predicate of `cleanup_files`:
`today_obj - date_obj <= datetime.timedelta(days=retention)` on the file's
session-start date, dates embedded as day numbers. -/
def retainedFile (today retention date : Int) : Bool :=
  today - date ≤ retention

/-- `cleanup_files`, viewed as the files that survive the sweep.  Each
candidate carries its parsed session-start day (`none` when the filename
does not match the derived-file pattern; such files are skipped, i.e.
kept). -/
def cleanup_kept (today retention : Int)
    (files : List (String × Option Int)) : List (String × Option Int) :=
  files.filter (fun f =>
    match f.2 with
    | none => true
    | some d => retainedFile today retention d)

/-- `cleanup_files`, viewed as the names the sweep deletes. -/
def cleanup_deleted (today retention : Int)
    (files : List (String × Option Int)) : List String :=
  files.filterMap (fun f =>
    match f.2 with
    | none => none
    | some d => if retainedFile today retention d then none else some f.1)

/-- Events that report a skip without touching the filesystem or invoking
an external tool. -/
def skipOnlyEvent : Event → Bool
  | .skippedThreshold _ => true
  | .concatExists _ => true
  | .outputExists _ => true
  | _ => false

/-- Events witnessing that the merge pipeline did real work on a role:
fingerprinting, manifest writing, or the merge invocation itself. -/
def mergeWorkEvent : Event → Bool
  | .fingerprint _ _ => true
  | .concatNotCreated _ => true
  | .concatCreated _ _ => true
  | .outputNotCreated _ => true
  | .mergeInvoked _ _ => true
  | .mergeFailed _ _ => true
  | .outputCreated _ => true
  | _ => false

/-- `chunk[0]['datetime']`, the session-start timestamp used in derived
names (0 stands in for the unreachable empty chunk). -/
def chunkStartTime : List Recording → Int
  | [] => 0
  | c0 :: _ => c0.datetime

/-- `chunk[-1]['datetime']`, the session-end timestamp used in derived
names. -/
def chunkEndTime : List Recording → Int
  | [] => 0
  | c0 :: tail => (tail.getLastD c0).datetime

/-- All derived files a chunk's processing could write already exist: for
each camera role whose video count is above the concat threshold, the join
manifest is in the work directory and the merged output in the output
directory. -/
def sessionFilesPresent (options : Options) (fs : FS)
    (chunk : List Recording) : Prop :=
  (options.concat_threshold < (((chunkVideos chunk).1.length : Nat) : Int) →
    (⟨chunkStartTime chunk, chunkEndTime chunk, "F", "con"⟩ : DerivedName)
      ∈ fs.work
    ∧ (⟨chunkStartTime chunk, chunkEndTime chunk, "F", "mp4"⟩ : DerivedName)
      ∈ fs.output)
  ∧ (options.concat_threshold < (((chunkVideos chunk).2.length : Nat) : Int) →
    (⟨chunkStartTime chunk, chunkEndTime chunk, "R", "con"⟩ : DerivedName)
      ∈ fs.work
    ∧ (⟨chunkStartTime chunk, chunkEndTime chunk, "R", "mp4"⟩ : DerivedName)
      ∈ fs.output)

instance (options : Options) (fs : FS) (chunk : List Recording) :
    Decidable (sessionFilesPresent options fs chunk) := by
  unfold sessionFilesPresent
  infer_instance

/-- Membership test of the front-camera list: mp4 and role ending in "F". -/
def isFrontVideo (i : Recording) : Bool :=
  decide (i.ext = "mp4") && pyEndsWith i.type "F"

/-- Membership test of the rear-camera list: mp4, role not ending in "F"
(the elif order), and ending in "R". -/
def isRearVideo (i : Recording) : Bool :=
  decide (i.ext = "mp4") && !pyEndsWith i.type "F" && pyEndsWith i.type "R"

/-! ## Helper lemmas -/

/-- The chunker's count test `len(chunks[-1]) == impact_flag` holds exactly
when every member of the chunk is an impact-role recording. -/
theorem length_eq_impactCount_iff (c : List Recording) :
    c.length = impactCount c ↔ ∀ x ∈ c, pyStartsWith x.type "I" = true := by
  unfold impactCount
  constructor
  · intro h x hx
    have hs : (c.filter (fun item => pyStartsWith item.type "I")) = c :=
      (List.filter_sublist c).eq_of_length h.symm
    exact List.filter_eq_self.mp hs x hx
  · intro h
    rw [List.filter_eq_self.mpr h]

/-- Appending to the current chunk and opening a fresh chunk are distinct
outcomes of the transition. -/
theorem append_ne_new_chunk (r last : Recording) (cur : List Recording)
    (older : List (List Recording)) :
    (r :: last :: cur) :: older ≠ [r] :: (last :: cur) :: older := by
  intro h
  simp at h

/-- Folding recordings that all share one timestamp keeps extending the
single current chunk. -/
theorem foldl_same_timestamp (options : Options) (ts : Int) :
    ∀ (l acc : List Recording), acc ≠ [] →
    (∀ x ∈ acc, x.datetime = ts) → (∀ x ∈ l, x.datetime = ts) →
    l.foldl (addToChunks options) [acc] = [l.reverse ++ acc] := by
  intro l
  induction l with
  | nil => intro acc _ _ _; simp
  | cons x xs ih =>
    intro acc hne hacc hl
    match acc, hne with
    | a :: acc', _ =>
      have hx : x.datetime = ts := hl x (by simp)
      have ha : a.datetime = ts := hacc a (by simp)
      have hstep : addToChunks options [a :: acc'] x = [x :: a :: acc'] := by
        simp only [addToChunks]
        rw [if_pos (by rw [hx, ha])]
      rw [List.foldl_cons, hstep]
      rw [ih (x :: a :: acc') (by simp)
        (by intro y hy; rcases List.mem_cons.mp hy with h | h
            · rw [h]; exact hx
            · exact hacc y h)
        (by intro y hy; exact hl y (List.mem_cons_of_mem x hy))]
      simp

/-- C3: a recording with the same timestamp as the current chunk's last
recording is appended unconditionally, and a run of same-timestamp
recordings always forms exactly one chunk. -/
theorem same_timestamp_single_chunk (options : Options) (last : Recording)
    (cur : List Recording) (older : List (List Recording)) (r : Recording)
    (recs : List Recording) (ts : Int) :
    (r.datetime = last.datetime →
      addToChunks options ((last :: cur) :: older) r
        = (r :: last :: cur) :: older)
    ∧ (recs ≠ [] → (∀ x ∈ recs, x.datetime = ts) →
      create_chunks options recs = [recs]) := by
  constructor
  · intro h
    simp only [addToChunks]
    rw [if_pos h]
  · intro hne hall
    match recs, hne with
    | r0 :: rest, _ =>
      unfold create_chunks
      have h0 : addToChunks options [] r0 = [[r0]] := rfl
      rw [List.foldl_cons, h0,
        foldl_same_timestamp options ts rest [r0] (by simp)
          (by intro y hy; simp at hy; rw [hy]; exact hall r0 (by simp))
          (by intro y hy; exact hall y (List.mem_cons_of_mem r0 hy))]
      simp [List.reverse_append]

/-- C1: for a strictly later recording, a gap above the consecutive
threshold always opens a new chunk, and at a gap exactly equal to the
threshold the append side of the boundary is taken: a new chunk can then
arise only from the impact-retention rule (default mode, all-impact chunk,
non-impact newcomer), never from the gap rule. -/
theorem gap_threshold_boundary (options : Options) (last : Recording)
    (cur : List Recording) (older : List (List Recording)) (r : Recording)
    (hlt : last.datetime < r.datetime) :
    (options.consecutive_threshold < r.datetime - last.datetime →
      addToChunks options ((last :: cur) :: older) r
        = [r] :: (last :: cur) :: older)
    ∧ (r.datetime - last.datetime = options.consecutive_threshold →
      (addToChunks options ((last :: cur) :: older) r
          = [r] :: (last :: cur) :: older
        ↔ options.initial_impact = false
          ∧ (∀ x ∈ last :: cur, pyStartsWith x.type "I" = true)
          ∧ pyStartsWith r.type "I" = false)) := by
  have hne : r.datetime ≠ last.datetime := hlt.ne'
  constructor
  · intro hgt
    simp only [addToChunks]
    rw [if_neg hne, if_neg (not_le.mpr hgt)]
  · intro heq
    simp only [addToChunks]
    rw [if_neg hne, if_pos (le_of_eq heq)]
    by_cases hii : options.initial_impact
    · rw [if_pos hii]
      simp [append_ne_new_chunk, hii]
    · rw [if_neg hii]
      by_cases hall : (last :: cur).length = impactCount (last :: cur)
      · rw [if_pos hall]
        by_cases hri : pyStartsWith r.type "I"
        · rw [if_pos hri]
          simp [append_ne_new_chunk, hri]
        · rw [if_neg hri]
          constructor
          · intro _
            exact ⟨Bool.eq_false_iff.mpr hii,
              (length_eq_impactCount_iff _).mp hall,
              Bool.eq_false_iff.mpr hri⟩
          · intro _; rfl
      · rw [if_neg hall]
        constructor
        · intro h; exact absurd h (append_ne_new_chunk r last cur older)
        · intro h
          exact absurd ((length_eq_impactCount_iff _).mpr h.2.1) hall

/-- C2: with `initial_impact` disabled, an all-impact current chunk turns
away a non-impact newcomer arriving within the gap threshold (a fresh
chunk is started with it) and absorbs an impact-role newcomer. -/
theorem all_impact_boundary (options : Options) (last : Recording)
    (cur : List Recording) (older : List (List Recording)) (r : Recording)
    (hii : options.initial_impact = false)
    (hlt : last.datetime < r.datetime)
    (hgap : r.datetime - last.datetime ≤ options.consecutive_threshold)
    (hall : ∀ x ∈ last :: cur, pyStartsWith x.type "I" = true) :
    (pyStartsWith r.type "I" = false →
      addToChunks options ((last :: cur) :: older) r
        = [r] :: (last :: cur) :: older)
    ∧ (pyStartsWith r.type "I" = true →
      addToChunks options ((last :: cur) :: older) r
        = (r :: last :: cur) :: older) := by
  have hne : r.datetime ≠ last.datetime := hlt.ne'
  have hcnt : (last :: cur).length = impactCount (last :: cur) :=
    (length_eq_impactCount_iff _).mpr hall
  constructor
  · intro hri
    simp only [addToChunks]
    rw [if_neg hne, if_pos hgap, if_neg (by rw [hii]; exact Bool.false_ne_true),
      if_pos hcnt, if_neg (by rw [hri]; exact Bool.false_ne_true)]
  · intro hri
    simp only [addToChunks]
    rw [if_neg hne, if_pos hgap, if_neg (by rw [hii]; exact Bool.false_ne_true),
      if_pos hcnt, if_pos hri]

theorem gap_threshold_boundary_witness :
    addToChunks ⟨64, 2, 14, false, false, false⟩
      [[(⟨0, "NF", "mp4", "d", "a"⟩ : Recording)]]
      ⟨100, "NF", "mp4", "d", "b"⟩
    = [[⟨100, "NF", "mp4", "d", "b"⟩], [⟨0, "NF", "mp4", "d", "a"⟩]] :=
  (gap_threshold_boundary ⟨64, 2, 14, false, false, false⟩
    ⟨0, "NF", "mp4", "d", "a"⟩ [] [] ⟨100, "NF", "mp4", "d", "b"⟩
    (by decide)).1 (by decide)

theorem all_impact_boundary_witness :
    addToChunks ⟨64, 2, 14, false, false, false⟩
      [[(⟨0, "IF", "mp4", "d", "a"⟩ : Recording)]]
      ⟨20, "NF", "mp4", "d", "b"⟩
    = [[⟨20, "NF", "mp4", "d", "b"⟩], [⟨0, "IF", "mp4", "d", "a"⟩]] :=
  (all_impact_boundary ⟨64, 2, 14, false, false, false⟩
    ⟨0, "IF", "mp4", "d", "a"⟩ [] [] ⟨20, "NF", "mp4", "d", "b"⟩
    rfl (by decide) (by decide) (by decide)).1 (by decide)

theorem same_timestamp_single_chunk_witness :
    addToChunks ⟨64, 2, 14, false, false, false⟩
      [[(⟨5, "NF", "mp4", "d", "a"⟩ : Recording)]]
      ⟨5, "XX", "gps", "d", "b"⟩
    = [[⟨5, "XX", "gps", "d", "b"⟩, ⟨5, "NF", "mp4", "d", "a"⟩]]
    ∧ create_chunks ⟨64, 2, 14, false, false, false⟩
      [⟨5, "NF", "mp4", "d", "a"⟩, ⟨5, "IR", "mp4", "d", "b"⟩]
    = [[⟨5, "NF", "mp4", "d", "a"⟩, ⟨5, "IR", "mp4", "d", "b"⟩]] :=
  ⟨(same_timestamp_single_chunk ⟨64, 2, 14, false, false, false⟩
      ⟨5, "NF", "mp4", "d", "a"⟩ [] [] ⟨5, "XX", "gps", "d", "b"⟩ [] 0).1
      (by decide),
   (same_timestamp_single_chunk ⟨64, 2, 14, false, false, false⟩
      ⟨5, "NF", "mp4", "d", "a"⟩ [] [] ⟨5, "XX", "gps", "d", "b"⟩
      [⟨5, "NF", "mp4", "d", "a"⟩, ⟨5, "IR", "mp4", "d", "b"⟩] 5).2
      (by decide) (by decide)⟩

/-- Characterization of one file's line scan: the final `inpoint` is the
time of the last anchor-matching frame (or the initial value when none
matches), and the final `md5` variable is the last frame hash (or the
initial value when the output has no frame line). -/
theorem foldl_lineStep_spec (anchor : Option String) :
    ∀ (lines : List String) (st : ScanState),
    (lines.foldl (lineStep anchor) st).inpoint
      = (lastMatchTime anchor st.tb_num st.tb_den lines).getD st.inpoint
    ∧ (lines.foldl (lineStep anchor) st).md5
      = Option.orElse (lastFrameHash lines) (fun _ => st.md5) := by
  intro lines
  induction lines with
  | nil => intro st; simp [lastMatchTime, lastFrameHash]
  | cons line rest ih =>
    intro st
    rw [List.foldl_cons]
    by_cases htb : pyStartsWith line "#tb"
    · cases hp : parseTb line with
      | none =>
        have hstep : lineStep anchor st line = st := by
          simp [lineStep, htb, hp]
        rw [hstep]
        simp [lastMatchTime, lastFrameHash, htb, hp, ih st]
      | some nd =>
        have hstep : lineStep anchor st line
            = { st with tb_num := nd.1, tb_den := nd.2 } := by
          simp [lineStep, htb, hp]
        rw [hstep]
        have := ih { st with tb_num := nd.1, tb_den := nd.2 }
        simp only [lastMatchTime, lastFrameHash, htb, hp] at this ⊢
        simp [this]
    · by_cases hfr : !pyStartsWith line "#" && !line.data.isEmpty
      · cases hp : parseFrame line with
        | none =>
          have hstep : lineStep anchor st line = st := by
            simp [lineStep, htb, hfr, hp]
          rw [hstep]
          simp [lastMatchTime, lastFrameHash, htb, hfr, hp, ih st]
        | some pm =>
          by_cases hm : some pm.2 = anchor
          · have hstep : lineStep anchor st line
                = { st with
                    inpoint := (pm.1 : ℚ) * (st.tb_num : ℚ) / (st.tb_den : ℚ),
                    md5 := some pm.2 } := by
              simp [lineStep, htb, hfr, hp, hm]
            rw [hstep]
            have := ih { st with
              inpoint := (pm.1 : ℚ) * (st.tb_num : ℚ) / (st.tb_den : ℚ),
              md5 := some pm.2 }
            simp only [lastMatchTime, lastFrameHash, htb, hfr, hp, hm] at this ⊢
            rw [this.1, this.2]
            constructor
            · cases lastMatchTime anchor st.tb_num st.tb_den rest <;>
                simp [Option.orElse]
            · cases lastFrameHash rest with
              | some h => simp [Option.orElse]
              | none => rw [← hm]; simp [Option.orElse]
          · have hstep : lineStep anchor st line
                = { st with md5 := some pm.2 } := by
              simp [lineStep, htb, hfr, hp, hm]
            rw [hstep]
            have := ih { st with md5 := some pm.2 }
            simp only [lastMatchTime, lastFrameHash, htb, hfr, hp, hm] at this ⊢
            rw [this.1, this.2]
            constructor
            · rfl
            · cases lastFrameHash rest <;> simp [Option.orElse]
      · have hstep : lineStep anchor st line = st := by
          simp only [lineStep]
          rw [if_neg (by simpa using htb), if_neg (by simpa using hfr)]
        rw [hstep]
        simp only [lastMatchTime, lastFrameHash] at *
        rw [if_neg (by simpa using htb), if_neg (by simpa using hfr),
          if_neg (by simpa using htb), if_neg (by simpa using hfr)]
        exact ih st

/-- The trim-record fold only appends: the records accumulator distributes
over the fold and the carried anchor is independent of it. -/
theorem foldl_processVideo_append :
    ∀ (l : List (Recording × FPResult)) (racc : List (String × ℚ))
      (a : Option String),
    l.foldl processVideo (racc, a)
      = (racc ++ (l.foldl processVideo ([], a)).1,
         (l.foldl processVideo ([], a)).2) := by
  intro l
  induction l with
  | nil => intro racc a; simp
  | cons vr rest ih =>
    intro racc a
    rw [List.foldl_cons, List.foldl_cons]
    simp only [processVideo, List.nil_append]
    conv_lhs => rw [ih]
    conv_rhs => rw [ih]
    simp

/-- One trim record is produced per video. -/
theorem foldl_processVideo_length :
    ∀ (l : List (Recording × FPResult)) (a : Option String),
    (l.foldl processVideo ([], a)).1.length = l.length := by
  intro l
  induction l with
  | nil => intro a; rfl
  | cons vr rest ih =>
    intro a
    rw [List.foldl_cons]
    simp only [processVideo, List.nil_append]
    rw [foldl_processVideo_append]
    simp [ih]

/-- The trim record of the video at position `pre.length` is computed by
scanning its fingerprint output against the anchor carried over from the
prefix. -/
theorem create_concat_records_getElem
    (pre : List (Recording × FPResult)) (x : Recording × FPResult)
    (post : List (Recording × FPResult)) :
    (create_concat_records (pre ++ x :: post))[pre.length]?
      = some (videoPath x.1,
        (x.2.stdout.foldl (lineStep (anchorAfter pre))
          ⟨0, 1, 1, anchorAfter pre⟩).inpoint) := by
  unfold create_concat_records anchorAfter
  rw [List.foldl_append, List.foldl_cons]
  have hsplit : pre.foldl processVideo ([], none)
      = ((pre.foldl processVideo ([], none)).1,
         (pre.foldl processVideo ([], none)).2) := rfl
  rw [hsplit]
  simp only [processVideo]
  rw [foldl_processVideo_append]
  have hlen : (pre.foldl processVideo ([], none)).1.length = pre.length :=
    foldl_processVideo_length pre none
  rw [List.append_assoc]
  simp only []
  rw [List.getElem?_append_right (by rw [hlen])]
  simp [hlen]

/-- `lastMatchTime` never finds a match when there is no anchor yet (the
Python comparison `md5 == None` is false for every parsed hash). -/
theorem lastMatchTime_none_anchor :
    ∀ (lines : List String) (tbn tbd : Int),
    lastMatchTime none tbn tbd lines = none := by
  intro lines
  induction lines with
  | nil => intro tbn tbd; rfl
  | cons line rest ih =>
    intro tbn tbd
    unfold lastMatchTime
    by_cases htb : pyStartsWith line "#tb"
    · rw [if_pos htb]
      cases parseTb line with
      | none => exact ih tbn tbd
      | some nd => exact ih nd.1 nd.2
    · rw [if_neg htb]
      by_cases hfr : !pyStartsWith line "#" && !line.data.isEmpty
      · rw [if_pos hfr]
        cases parseFrame line with
        | none => exact ih tbn tbd
        | some pm => simp [ih tbn tbd]
      · rw [if_neg hfr]
        exact ih tbn tbd

/-- Replacing every exit status leaves the trim-record computation
untouched: `processVideo` never consults `returncode`. -/
theorem foldl_processVideo_returncode (rcs : Recording × FPResult → Int) :
    ∀ (l : List (Recording × FPResult))
      (acc : List (String × ℚ) × Option String),
    (l.map (fun vr => (vr.1, FPResult.mk (rcs vr) vr.2.stdout))).foldl
        processVideo acc
      = l.foldl processVideo acc := by
  intro l
  induction l with
  | nil => intro acc; rfl
  | cons vr rest ih =>
    intro acc
    simp only [List.map_cons, List.foldl_cons]
    rw [show processVideo acc (vr.1, FPResult.mk (rcs vr) vr.2.stdout)
        = processVideo acc vr from rfl]
    exact ih _

/-- C4: the first file of a camera list gets `inpoint = 0`; a later file
gets `inpoint = 0` when no frame of its fingerprint output matches the
anchor carried over from the previous files, and otherwise the
presentation time (`raw_pts * tb_num / tb_den`, time base starting at
`1/1`) of the last matching frame found while scanning forward. -/
theorem inpoint_last_match :
    (∀ (v : Recording) (res : FPResult) (rest : List (Recording × FPResult)),
      (create_concat_records ((v, res) :: rest))[0]?
        = some (videoPath v, 0))
    ∧ (∀ (pre : List (Recording × FPResult)) (v : Recording) (res : FPResult)
        (post : List (Recording × FPResult)),
      lastMatchTime (anchorAfter pre) 1 1 res.stdout = none →
      (create_concat_records (pre ++ (v, res) :: post))[pre.length]?
        = some (videoPath v, 0))
    ∧ (∀ (pre : List (Recording × FPResult)) (v : Recording) (res : FPResult)
        (post : List (Recording × FPResult)) (t : ℚ),
      lastMatchTime (anchorAfter pre) 1 1 res.stdout = some t →
      (create_concat_records (pre ++ (v, res) :: post))[pre.length]?
        = some (videoPath v, t)) := by
  refine ⟨?_, ?_, ?_⟩
  · intro v res rest
    have h := create_concat_records_getElem [] (v, res) rest
    simp only [List.nil_append, List.length_nil] at h
    rw [h, (foldl_lineStep_spec (anchorAfter []) res.stdout
      ⟨0, 1, 1, anchorAfter []⟩).1]
    rw [show anchorAfter [] = none from rfl, lastMatchTime_none_anchor]
    rfl
  · intro pre v res post hnone
    rw [create_concat_records_getElem pre (v, res) post,
      (foldl_lineStep_spec (anchorAfter pre) res.stdout
        ⟨0, 1, 1, anchorAfter pre⟩).1]
    rw [show (⟨0, 1, 1, anchorAfter pre⟩ : ScanState).tb_num = 1 from rfl,
      show (⟨0, 1, 1, anchorAfter pre⟩ : ScanState).tb_den = 1 from rfl] at *
    rw [hnone]
    rfl
  · intro pre v res post t hsome
    rw [create_concat_records_getElem pre (v, res) post,
      (foldl_lineStep_spec (anchorAfter pre) res.stdout
        ⟨0, 1, 1, anchorAfter pre⟩).1]
    rw [show (⟨0, 1, 1, anchorAfter pre⟩ : ScanState).tb_num = 1 from rfl,
      show (⟨0, 1, 1, anchorAfter pre⟩ : ScanState).tb_den = 1 from rfl] at *
    rw [hsome]
    rfl

theorem inpoint_last_match_witness :
    (create_concat_records
        ([((⟨0, "NF", "mp4", "d", "a.mp4"⟩ : Recording),
           (⟨0, ["#tb 0: 1/1000", "0, 0, 0, 1, 460800, bbbb"]⟩ : FPResult))]
          ++ ((⟨60, "NF", "mp4", "d", "b.mp4"⟩ : Recording),
              (⟨1, ["#tb 0: 1/1000",
                    "0, 0, 0, 1, 460800, bbbb",
                    "0, 1000, 1000, 1, 460800, bbbb",
                    "0, 2000, 2000, 1, 460800, cccc"]⟩ : FPResult)) :: []))[
        [((⟨0, "NF", "mp4", "d", "a.mp4"⟩ : Recording),
          (⟨0, ["#tb 0: 1/1000", "0, 0, 0, 1, 460800, bbbb"]⟩ : FPResult))].length]?
      = some (videoPath ⟨60, "NF", "mp4", "d", "b.mp4"⟩,
          ((1000 : Int) : ℚ) * ((1 : Int) : ℚ) / ((1000 : Int) : ℚ)) :=
  inpoint_last_match.2.2 _ _ _ _ _ (by rfl)

/-- C5: after a file's fingerprint lines are scanned, the carried anchor
`md5_last_frame` equals that file's final frame hash — for every exit
status `rc`, including non-zero ones — both at the single-file step and
for the anchor carried out of a whole video list; the next file's scan is
seeded with exactly this anchor. -/
theorem md5_anchor_update (videos : List (Recording × FPResult))
    (racc : List (String × ℚ)) (anchor : Option String) (v : Recording)
    (rc : Int) (lines : List String) (h : String)
    (hlast : lastFrameHash lines = some h) :
    (processVideo (racc, anchor) (v, ⟨rc, lines⟩)).2 = some h
    ∧ anchorAfter (videos ++ [(v, ⟨rc, lines⟩)]) = some h := by
  have hmd5 : ∀ (a : Option String),
      (lines.foldl (lineStep a) ⟨0, 1, 1, a⟩).md5 = some h := by
    intro a
    rw [(foldl_lineStep_spec a lines ⟨0, 1, 1, a⟩).2, hlast]
    rfl
  constructor
  · simp only [processVideo]
    exact hmd5 anchor
  · unfold anchorAfter
    rw [List.foldl_append]
    show (processVideo (videos.foldl processVideo ([], none))
      (v, ⟨rc, lines⟩)).2 = some h
    simp only [processVideo]
    exact hmd5 _

theorem md5_anchor_update_witness :
    (processVideo ([], some "zz")
      ((⟨0, "NF", "mp4", "d", "a.mp4"⟩ : Recording),
       (⟨1, ["#tb 0: 1/1000", "0, 0, 0, 1, 460800, aa",
             "0, 1, 1, 1, 460800, bb", ""]⟩ : FPResult))).2
      = some "bb"
    ∧ anchorAfter
      [((⟨0, "NF", "mp4", "d", "a.mp4"⟩ : Recording),
        (⟨1, ["#tb 0: 1/1000", "0, 0, 0, 1, 460800, aa",
              "0, 1, 1, 1, 460800, bb", ""]⟩ : FPResult))]
      = some "bb" := by
  have hw := md5_anchor_update [] [] (some "zz")
    ⟨0, "NF", "mp4", "d", "a.mp4"⟩ 1
    ["#tb 0: 1/1000", "0, 0, 0, 1, 460800, aa", "0, 1, 1, 1, 460800, bb", ""]
    "bb" (by decide)
  exact ⟨hw.1, hw.2⟩

/-- Whenever the faithful runner completes without the line-197
`NameError`, its result is exactly the total model's record list. -/
theorem run_ok_agrees :
    ∀ (videos : List (Recording × FPResult)) (racc : List (String × ℚ))
      (a : Option String) (r : List (String × ℚ)),
    create_concat_records_run (racc, a) videos = Except.ok r →
    r = (videos.foldl processVideo (racc, a)).1 := by
  intro videos
  induction videos with
  | nil =>
    intro racc a r h
    simp only [create_concat_records_run, Except.ok.injEq] at h
    simp [← h]
  | cons vr rest ih =>
    intro racc a r h
    simp only [create_concat_records_run] at h
    cases hmd : (vr.2.stdout.foldl (lineStep a) ⟨0, 1, 1, a⟩).md5 with
    | none =>
      rw [hmd] at h
      simp at h
    | some hh =>
      rw [hmd] at h
      rw [List.foldl_cons]
      have hpv : processVideo (racc, a) vr
          = (racc ++ [(videoPath vr.1,
              (vr.2.stdout.foldl (lineStep a) ⟨0, 1, 1, a⟩).inpoint)],
             some hh) := by
        simp only [processVideo]
        rw [hmd]
      rw [hpv]
      exact ih _ _ _ h

/-- C6: the claim fails on the code.  A camera list whose first file's
fingerprinting fails with empty output (exit status 1,
`result.stdout.split('\n') = ['']`) crashes the whole run: no frame line
ever binds `md5`, so line 197 raises `NameError` before the
`records.append` of line 202 — the file is not added with `inpoint = 0`
and the failure propagates past it.  When the first file's output does
contain a frame line, the same shape of input completes and the file is
recorded with `inpoint = 0` as the claim describes. -/
theorem fingerprint_failure_crash :
    create_concat_records_run ([], none)
      [((⟨0, "NF", "mp4", "d", "a.mp4"⟩ : Recording),
        (⟨1, [""]⟩ : FPResult))]
      = Except.error []
    ∧ create_concat_records_run ([], none)
      [((⟨0, "NF", "mp4", "d", "a.mp4"⟩ : Recording),
        (⟨1, ["0, 0, 0, 1, 460800, aa", ""]⟩ : FPResult))]
      = Except.ok [(videoPath ⟨0, "NF", "mp4", "d", "a.mp4"⟩, 0)] := by
  constructor
  · rfl
  · rfl


/-- C7: a camera-role list with at most `concat_threshold` mp4 files is
skipped outright — the run leaves the directories untouched and logs only
the skip — and any manifest/fingerprint/merge work implies the count was
strictly above the threshold. -/
theorem concat_threshold_skip (options : Options) (fs : FS)
    (time_start time_end : Int) (camera : String) (videos : List Recording)
    (title : String) (fp : Recording → FPResult)
    (mergerc : DerivedName → Int) :
    ((videos.length : Int) ≤ options.concat_threshold →
      process_videos options fs time_start time_end camera videos title fp
          mergerc
        = ⟨fs, [Event.skippedThreshold title], true⟩)
    ∧ (∀ e ∈ (process_videos options fs time_start time_end camera videos
        title fp mergerc).events,
      mergeWorkEvent e = true →
        options.concat_threshold < (videos.length : Int)) := by
  constructor
  · intro hle
    simp only [process_videos]
    rw [if_pos hle]
  · intro e he hw
    by_cases hle : (videos.length : Int) ≤ options.concat_threshold
    · simp only [process_videos] at he
      rw [if_pos hle] at he
      simp only [List.mem_singleton] at he
      rw [he] at hw
      simp [mergeWorkEvent] at hw
    · exact not_le.mp hle

theorem concat_threshold_skip_witness :
    process_videos ⟨64, 2, 14, false, false, false⟩ ⟨[], []⟩ 0 10 "F"
        [⟨0, "NF", "mp4", "d", "a.mp4"⟩, ⟨10, "NF", "mp4", "d", "b.mp4"⟩]
        "title" (fun _ => ⟨0, []⟩) (fun _ => 0)
      = ⟨⟨[], []⟩, [Event.skippedThreshold "title"], true⟩ :=
  (concat_threshold_skip ⟨64, 2, 14, false, false, false⟩ ⟨[], []⟩ 0 10 "F"
    [⟨0, "NF", "mp4", "d", "a.mp4"⟩, ⟨10, "NF", "mp4", "d", "b.mp4"⟩]
    "title" (fun _ => ⟨0, []⟩) (fun _ => 0)).1 (by decide)


/-- With overwrite disabled and both derived files already present (when
the threshold is passed at all), `process_videos` changes nothing and
reports only skips. -/
theorem process_videos_skip (options : Options) (fs : FS) (ts te : Int)
    (camera : String) (videos : List Recording) (title : String)
    (fp : Recording → FPResult) (mergerc : DerivedName → Int)
    (hov : options.overwrite = false)
    (hex : options.concat_threshold < (videos.length : Int) →
      (⟨ts, te, camera, "con"⟩ : DerivedName) ∈ fs.work
      ∧ (⟨ts, te, camera, "mp4"⟩ : DerivedName) ∈ fs.output) :
    (process_videos options fs ts te camera videos title fp mergerc).fs = fs
    ∧ (process_videos options fs ts te camera videos title fp mergerc).ok
        = true
    ∧ ∀ e ∈ (process_videos options fs ts te camera videos title fp
        mergerc).events, skipOnlyEvent e = true := by
  by_cases hle : (videos.length : Int) ≤ options.concat_threshold
  · simp only [process_videos]
    rw [if_pos hle]
    refine ⟨rfl, rfl, ?_⟩
    intro e he
    simp only [List.mem_singleton] at he
    rw [he]
    rfl
  · have hm := hex (not_le.mp hle)
    simp only [process_videos]
    rw [if_neg hle]
    simp only [create_concat_file]
    rw [if_pos ⟨hm.1, hov⟩]
    simp only [create_output_file]
    rw [if_pos ⟨hm.2, hov⟩]
    refine ⟨rfl, trivial, ?_⟩
    intro e he
    simp only [List.cons_append, List.nil_append, List.mem_cons,
      List.not_mem_nil, or_false] at he
    rcases he with h | h <;> rw [h] <;> rfl

/-- C8: re-running the pipeline with overwrite disabled over chunks whose
derived files all exist changes neither directory and performs no
fingerprinting, manifest writing or merging — every event is one of the
three skip messages; the manifest check fires before any fingerprinting
and the output check before any merge. -/
theorem rerun_no_changes (options : Options) (fp : Recording → FPResult)
    (mergerc : DerivedName → Int) (fs : FS)
    (chunks : List (List Recording))
    (hov : options.overwrite = false)
    (hpres : ∀ chunk ∈ chunks, sessionFilesPresent options fs chunk) :
    (process_chunks options fp mergerc fs chunks).1 = fs
    ∧ ∀ e ∈ (process_chunks options fp mergerc fs chunks).2,
      skipOnlyEvent e = true := by
  induction chunks with
  | nil => exact ⟨rfl, by intro e he; simp [process_chunks] at he⟩
  | cons chunk rest ih =>
    have ihr := ih (fun c hc => hpres c (List.mem_cons_of_mem _ hc))
    match chunk with
    | [] =>
      simpa only [process_chunks] using ihr
    | c0 :: tail =>
      have hpc := hpres (c0 :: tail) (List.mem_cons_self _ _)
      have h1 := process_videos_skip options fs c0.datetime
        ((tail.getLastD c0).datetime) "F" (chunkVideos (c0 :: tail)).1
        "Front" fp mergerc hov (by exact hpc.1)
      have h2 := process_videos_skip options fs c0.datetime
        ((tail.getLastD c0).datetime) "R" (chunkVideos (c0 :: tail)).2
        "Rear" fp mergerc hov (by exact hpc.2)
      simp only [process_chunks]
      rw [h1.1, h1.2.1, h2.1, h2.2.1]
      simp only [if_true]
      rw [ihr.1]
      refine ⟨rfl, ?_⟩
      intro e he
      simp only [List.mem_append] at he
      rcases he with (h | h) | h
      · exact h1.2.2 e h
      · exact h2.2.2 e h
      · exact ihr.2 e h

theorem rerun_no_changes_witness :
    (process_chunks ⟨64, 2, 14, false, false, false⟩ (fun _ => ⟨0, []⟩)
        (fun _ => 0)
        ⟨[⟨0, 20, "F", "con"⟩], [⟨0, 20, "F", "mp4"⟩]⟩
        [[⟨0, "NF", "mp4", "d", "a.mp4"⟩, ⟨10, "NF", "mp4", "d", "b.mp4"⟩,
          ⟨20, "NF", "mp4", "d", "c.mp4"⟩]]).1
      = ⟨[⟨0, 20, "F", "con"⟩], [⟨0, 20, "F", "mp4"⟩]⟩ :=
  (rerun_no_changes ⟨64, 2, 14, false, false, false⟩ (fun _ => ⟨0, []⟩)
    (fun _ => 0) ⟨[⟨0, 20, "F", "con"⟩], [⟨0, 20, "F", "mp4"⟩]⟩
    [[⟨0, "NF", "mp4", "d", "a.mp4"⟩, ⟨10, "NF", "mp4", "d", "b.mp4"⟩,
      ⟨20, "NF", "mp4", "d", "c.mp4"⟩]] rfl (by decide)).1

/-- C9: the retention sweep keeps a parsed file exactly when its
session-start date lies at most `retention` days before `today`, and
deletes it when strictly older; in particular the boundary date
`today - retention` is kept and `today - (retention + 1)` is deleted. -/
theorem retention_boundary (today retention : Int)
    (files : List (String × Option Int)) (name : String) (d : Int) :
    ((name, some d) ∈ files →
      (((name, some d) ∈ cleanup_kept today retention files)
        ↔ today - d ≤ retention)
      ∧ (retention < today - d →
        name ∈ cleanup_deleted today retention files))
    ∧ retainedFile today retention (today - retention) = true
    ∧ retainedFile today retention (today - (retention + 1)) = false := by
  refine ⟨?_, ?_, ?_⟩
  · intro hmem
    constructor
    · constructor
      · intro hk
        have h := (List.mem_filter.mp hk).2
        simpa [retainedFile] using h
      · intro hle
        exact List.mem_filter.mpr ⟨hmem, by simpa [retainedFile] using hle⟩
    · intro hgt
      apply List.mem_filterMap.mpr
      refine ⟨(name, some d), hmem, ?_⟩
      simp [retainedFile, not_le.mpr hgt]
  · simp only [retainedFile, decide_eq_true_eq]
    omega
  · simp only [retainedFile, decide_eq_false_iff_not, not_le]
    omega

theorem retention_boundary_witness :
    ("a", some 86) ∈ cleanup_kept 100 14
      [("a", some 86), ("b", some 85), ("c", none)]
    ∧ "b" ∈ cleanup_deleted 100 14
      [("a", some 86), ("b", some 85), ("c", none)] :=
  ⟨((retention_boundary 100 14
      [("a", some 86), ("b", some 85), ("c", none)] "a" 86).1
        (by decide)).1.mpr (by decide),
   ((retention_boundary 100 14
      [("a", some 86), ("b", some 85), ("c", none)] "b" 85).1
        (by decide)).2 (by decide)⟩


/-- The camera-role fold is the pair of filters on the two role
predicates. -/
theorem chunkVideos_eq_filter :
    ∀ (chunk : List Recording) (accF accR : List Recording),
    chunk.foldl chunkVideosStep (accF, accR)
      = (accF ++ chunk.filter isFrontVideo, accR ++ chunk.filter isRearVideo) := by
  intro chunk
  induction chunk with
  | nil => intro accF accR; simp
  | cons i rest ih =>
    intro accF accR
    rw [List.foldl_cons]
    by_cases hext : i.ext = "mp4"
    · by_cases hF : pyEndsWith i.type "F"
      · have hstep : chunkVideosStep (accF, accR) i = (accF ++ [i], accR) := by
          simp [chunkVideosStep, hext, hF]
        rw [hstep, ih]
        simp [List.filter_cons, isFrontVideo, isRearVideo, hext, hF]
      · by_cases hR : pyEndsWith i.type "R"
        · have hstep : chunkVideosStep (accF, accR) i = (accF, accR ++ [i]) := by
            simp [chunkVideosStep, hext, hF, hR]
          rw [hstep, ih]
          simp [List.filter_cons, isFrontVideo, isRearVideo, hext, hF, hR]
        · have hstep : chunkVideosStep (accF, accR) i = (accF, accR) := by
            simp [chunkVideosStep, hext, hF, hR]
          rw [hstep, ih]
          simp [List.filter_cons, isFrontVideo, isRearVideo, hext, hF, hR]
    · have hstep : chunkVideosStep (accF, accR) i = (accF, accR) := by
        simp [chunkVideosStep, hext]
      rw [hstep, ih]
      simp [List.filter_cons, isFrontVideo, isRearVideo, hext]

/-- C10: the per-chunk camera lists hold only mp4 recordings with the
matching role suffix, and an mp4 recording of the chunk whose role ends in
neither "F" nor "R" appears in neither list (it stays only a chunk
member). -/
theorem role_split (chunk : List Recording) (item : Recording) :
    (item ∈ (chunkVideos chunk).1 →
      item.ext = "mp4" ∧ pyEndsWith item.type "F" = true)
    ∧ (item ∈ (chunkVideos chunk).2 →
      item.ext = "mp4" ∧ pyEndsWith item.type "R" = true)
    ∧ (item ∈ chunk → item.ext = "mp4" →
      pyEndsWith item.type "F" = false → pyEndsWith item.type "R" = false →
      item ∉ (chunkVideos chunk).1 ∧ item ∉ (chunkVideos chunk).2) := by
  have hcv : chunkVideos chunk
      = (chunk.filter isFrontVideo, chunk.filter isRearVideo) := by
    unfold chunkVideos
    rw [chunkVideos_eq_filter chunk [] []]
    simp
  refine ⟨?_, ?_, ?_⟩
  · intro hmem
    rw [hcv] at hmem
    have h := (List.mem_filter.mp hmem).2
    simp only [isFrontVideo, Bool.and_eq_true, decide_eq_true_eq] at h
    exact h
  · intro hmem
    rw [hcv] at hmem
    have h := (List.mem_filter.mp hmem).2
    simp only [isRearVideo, Bool.and_eq_true, decide_eq_true_eq] at h
    exact ⟨h.1.1, h.2⟩
  · intro _ hext hF hR
    rw [hcv]
    constructor
    · intro hmem
      have h := (List.mem_filter.mp hmem).2
      simp [isFrontVideo, hext, hF] at h
    · intro hmem
      have h := (List.mem_filter.mp hmem).2
      simp [isRearVideo, hext, hF, hR] at h

theorem role_split_witness :
    ((⟨0, "NF", "mp4", "d", "a"⟩ : Recording)
        ∈ (chunkVideos [⟨0, "NF", "mp4", "d", "a"⟩, ⟨0, "NR", "mp4", "d", "b"⟩,
            ⟨0, "XP", "mp4", "d", "c"⟩]).1
      → (⟨0, "NF", "mp4", "d", "a"⟩ : Recording).ext = "mp4"
        ∧ pyEndsWith (⟨0, "NF", "mp4", "d", "a"⟩ : Recording).type "F" = true)
    ∧ ((⟨0, "XP", "mp4", "d", "c"⟩ : Recording)
        ∉ (chunkVideos [⟨0, "NF", "mp4", "d", "a"⟩, ⟨0, "NR", "mp4", "d", "b"⟩,
            ⟨0, "XP", "mp4", "d", "c"⟩]).1
      ∧ (⟨0, "XP", "mp4", "d", "c"⟩ : Recording)
        ∉ (chunkVideos [⟨0, "NF", "mp4", "d", "a"⟩, ⟨0, "NR", "mp4", "d", "b"⟩,
            ⟨0, "XP", "mp4", "d", "c"⟩]).2) :=
  ⟨(role_split [⟨0, "NF", "mp4", "d", "a"⟩, ⟨0, "NR", "mp4", "d", "b"⟩,
      ⟨0, "XP", "mp4", "d", "c"⟩] ⟨0, "NF", "mp4", "d", "a"⟩).1,
   (role_split [⟨0, "NF", "mp4", "d", "a"⟩, ⟨0, "NR", "mp4", "d", "b"⟩,
      ⟨0, "XP", "mp4", "d", "c"⟩] ⟨0, "XP", "mp4", "d", "c"⟩).2.2
     (by decide) (by decide) (by decide) (by decide)⟩
